import Mathlib

set_option maxHeartbeats 1000000

/-!
Shallow embedding of the ur_modern_driver trajectory action server
(src/src/ros/action_server.cpp), the trajectory-follower data types
(include/ur_modern_driver/ros/trajectory_follower.h) and the telemetry
parsers (include/ur_modern_driver/ur/parser.h), together with theorems
checking the specification of the goal admission, joint reordering,
preemption, completion polling, hang handling, safety-state handling and
parser rejection behaviour.

Machine doubles are embedded as a finiteness flag plus an exact rational
value; the action-server code always guards value comparisons behind the
std::isfinite check, so this embedding is faithful for the comparisons the
code performs.  Durations are embedded exactly, in integer nanoseconds
converted to microseconds with truncating division, as std::chrono does.
-/

/-- Model of a C++ double: a finiteness flag plus an exact rational value.
The rational field is meaningful only when the flag is set; std::isfinite
reads the flag. -/
structure Dbl where
  finite : Bool
  val : ℚ
deriving DecidableEq, Repr

/-- A finite double with the given value. -/
def Dbl.ofRat (q : ℚ) : Dbl := ⟨true, q⟩

/-- ros::Duration: a seconds field and a nanoseconds field. -/
structure RosDuration where
  sec : Int
  nsec : Int
deriving DecidableEq, Repr

/-- convert (action_server.cpp line 231): duration_cast to microseconds of
sec seconds plus nsec nanoseconds; duration_cast truncates toward zero. -/
def convert (d : RosDuration) : Int := (d.sec * 1000000000 + d.nsec).tdiv 1000

/-- trajectory_msgs/JointTrajectoryPoint: per-joint positions and
velocities plus time_from_start. -/
structure JointTrajPoint where
  positions : List Dbl
  velocities : List Dbl
  time_from_start : RosDuration
deriving DecidableEq, Repr

/-- The trajectory carried by a FollowJointTrajectory goal: the joint-name
ordering it was authored against plus the point list. -/
structure JointTraj where
  joint_names : List String
  points : List JointTrajPoint
deriving DecidableEq, Repr

/-- control_msgs/FollowJointTrajectoryResult: error code and message. -/
structure Result where
  error_code : Int
  error_string : String
deriving DecidableEq, Repr

def Result.SUCCESSFUL : Int := 0
def Result.INVALID_GOAL : Int := -1
def Result.INVALID_JOINTS : Int := -2

/-- RobotState as consumed by ActionServer::validateState. -/
inductive RobotState
  | Running
  | ProtectiveStopped
  | EmergencyStopped
  | Error
  | Undefined
deriving DecidableEq, Repr, Fintype

/-- The configuration the ActionServer is constructed with: canonical
joint names (joint_names_) and the velocity bound (max_velocity_). -/
structure ASConfig where
  joint_names : List String
  max_velocity : ℚ
deriving DecidableEq, Repr

/-- validateState (action_server.cpp lines 135-158). -/
def validateState (state : RobotState) (res : Result) : Bool × Result :=
  match state with
  | RobotState.EmergencyStopped =>
      (false, { res with error_string := "Robot is emergency stopped" })
  | RobotState.ProtectiveStopped =>
      (false, { res with error_string := "Robot is protective stopped" })
  | RobotState.Error =>
      (false, { res with error_string := "Robot is not ready, check robot_mode" })
  | RobotState.Running => (true, res)
  | RobotState.Undefined =>
      (false, { res with error_string := "Undefined state" })

/-- The comma-joined listing used in the invalid-joints message. -/
def joinComma (l : List String) : String :=
  l.foldl (fun acc j => acc ++ j ++ ", ") ""

/-- validateJoints (action_server.cpp lines 160-176): the goal passes iff
its joint-name set equals the configured joint set. -/
def validateJoints (cfg : ASConfig) (goal : JointTraj) (res : Result) : Bool × Result :=
  if goal.joint_names.toFinset = cfg.joint_names.toFinset then (true, res)
  else
    (false,
      { error_code := Result.INVALID_JOINTS
        error_string :=
          "Invalid joint names for goal\n" ++ "Expected: " ++
            joinComma goal.joint_names.dedup ++ "\nFound: " ++
            joinComma cfg.joint_names.dedup })

def velSizeMsg : String := "Received a goal with an invalid number of velocities"
def posSizeMsg : String := "Received a goal with an invalid number of positions"
def velFiniteMsg : String := "Received a goal with infinities or NaNs in velocity"
def posFiniteMsg : String := "Received a goal with infinities or NaNs in positions"
def velOverPre : String :=
  "Received a goal with velocities that are higher than max_velocity_ "
def velOverMsg (m : ℚ) : String := velOverPre ++ toString m

/-- The velocity loop of validateTrajectory (action_server.cpp lines
203-215): reject non-finite entries, then entries whose magnitude exceeds
max_velocity_. -/
def checkVels (maxv : ℚ) (vels : List Dbl) (res : Result) : Bool × Result :=
  match vels with
  | [] => (true, res)
  | v :: rest =>
    if !v.finite then (false, { res with error_string := velFiniteMsg })
    else if maxv < |v.val| then (false, { res with error_string := velOverMsg maxv })
    else checkVels maxv rest res

/-- The position loop of validateTrajectory (action_server.cpp lines
216-223): reject non-finite entries. -/
def checkPoss (poss : List Dbl) (res : Result) : Bool × Result :=
  match poss with
  | [] => (true, res)
  | p :: rest =>
    if !p.finite then (false, { res with error_string := posFiniteMsg })
    else checkPoss rest res

/-- The per-point body of validateTrajectory (action_server.cpp lines
187-224): vector sizes must match the configured joint count, then the
velocity loop, then the position loop. -/
def checkPoint (cfg : ASConfig) (p : JointTrajPoint) (res : Result) : Bool × Result :=
  if p.velocities.length ≠ cfg.joint_names.length then
    (false, { res with error_code := Result.INVALID_GOAL, error_string := velSizeMsg })
  else if p.positions.length ≠ cfg.joint_names.length then
    (false, { res with error_code := Result.INVALID_GOAL, error_string := posSizeMsg })
  else
    match checkVels cfg.max_velocity p.velocities res with
    | (false, r) => (false, r)
    | (true, r) => checkPoss p.positions r

/-- The point loop of validateTrajectory. -/
def checkPoints (cfg : ASConfig) (pts : List JointTrajPoint) (res : Result) : Bool × Result :=
  match pts with
  | [] => (true, res)
  | p :: rest =>
    match checkPoint cfg p res with
    | (false, r) => (false, r)
    | (true, r) => checkPoints cfg rest r

/-- validateTrajectory (action_server.cpp lines 178-229): sets error_code
to INVALID_GOAL, rejects an empty point list (leaving the message as it
was), then runs the per-point checks. -/
def validateTrajectory (cfg : ASConfig) (goal : JointTraj) (res : Result) : Bool × Result :=
  let res1 := { res with error_code := Result.INVALID_GOAL }
  if goal.points.length < 1 then (false, res1)
  else checkPoints cfg goal.points res1

/-- validate (action_server.cpp line 130): short-circuit conjunction of the
three validators, threading the result record. -/
def validate (cfg : ASConfig) (state : RobotState) (goal : JointTraj) (res : Result) :
    Bool × Result :=
  match validateState state res with
  | (false, r) => (false, r)
  | (true, r) =>
    match validateJoints cfg goal r with
    | (false, r2) => (false, r2)
    | (true, r2) => validateTrajectory cfg goal r2

/-- Outcome of onGoal for the submitting client: the goal is either handed
to the execution thread or synchronously rejected with a result record. -/
inductive GoalOutcome
  | admitted
  | rejected (res : Result)
deriving DecidableEq, Repr

/-- onGoal (action_server.cpp lines 101-113): res starts with code -100 and
an empty message; a goal failing validate (or try_execute, which fails only
when the server is not running) is rejected with the threaded result. -/
def onGoal (cfg : ASConfig) (state : RobotState) (running : Bool) (goal : JointTraj) :
    GoalOutcome :=
  let res0 : Result := { error_code := -100, error_string := "" }
  match validate cfg state goal res0 with
  | (false, r) => GoalOutcome.rejected r
  | (true, r) =>
    if running then GoalOutcome.admitted
    else GoalOutcome.rejected { r with error_string := "Internal error" }

/-! ## Joint reordering and trajectory translation -/

/-- The inner linear search of ActionServer::reorderMap (action_server.cpp
lines 267-273): the index of the first occurrence of a name, or the list
length when the name is absent. -/
def idxSearch (l : List String) (a : String) : ℕ :=
  match l with
  | [] => 0
  | x :: xs => if a = x then 0 else idxSearch xs a + 1

/-- reorderMap (action_server.cpp lines 262-277): for each configured joint
name, the position of that name in the goal joint-name list. -/
def reorderMap (joint_names goal_joints : List String) : List ℕ :=
  joint_names.map (idxSearch goal_joints)

/-- The scatter loop of the trajectory translation (action_server.cpp lines
315-320): entry i of the source vector is written to slot mapping[i] of the
destination array, sequentially. -/
def scatterWrite (mapping : List ℕ) (vals : List ℚ) (a : ℕ → ℚ) : ℕ → ℚ :=
  match mapping, vals with
  | m :: ms, v :: vs => scatterWrite ms vs (Function.update a m v)
  | _, _ => a

/-- TrajectoryPoint (trajectory_follower.h lines 16-30); the per-joint
arrays are modelled as functions from index to value, the time as
microseconds. -/
structure TrajectoryPoint where
  positions : ℕ → ℚ
  velocities : ℕ → ℚ
  time_from_start : Int

/-- Translation of one goal point (action_server.cpp lines 312-323): both
arrays are scatter-written through the reorder mapping.  The array the C++
code writes into is uninitialized; the model starts it at zero. -/
def translatePoint (mapping : List ℕ) (p : JointTrajPoint) : TrajectoryPoint :=
  { positions := scatterWrite mapping (p.positions.map Dbl.val) (fun _ => 0)
    velocities := scatterWrite mapping (p.velocities.map Dbl.val) (fun _ => 0)
    time_from_start := convert p.time_from_start }

/-- The trajectory assembled by trajectoryThread before the follower call
(action_server.cpp lines 292-323): a synthetic t=0 point holding the
current actual position and velocity is prepended exactly when the first
goal point has a strictly positive start time. -/
def buildTrajectory (cfg : ASConfig) (q_actual qd_actual : ℕ → ℚ) (goal : JointTraj) :
    List TrajectoryPoint :=
  let mapping := reorderMap cfg.joint_names goal.joint_names
  let pts := goal.points.map (translatePoint mapping)
  match goal.points with
  | [] => pts
  | fp :: _ =>
    if 0 < convert fp.time_from_start then
      TrajectoryPoint.mk q_actual qd_actual 0 :: pts
    else pts

/-! ## Completion polling and the per-goal event trace -/

/-- The actual-state snapshot updated from telemetry (action_server.cpp
lines 73-78). -/
structure Telemetry where
  q_actual : List ℚ
  qd_actual : List ℚ
deriving DecidableEq, Repr

/-- reachedGoal (action_server.cpp lines 432-445): every joint of the
actual position is within the 0.0025 tolerance of the final waypoint. -/
def reachedGoal (q : List ℚ) (goalPos : ℕ → ℚ) : Bool :=
  (List.range q.length).all fun i => |q.getD i 0 - goalPos i| ≤ (1 / 400 : ℚ)

/-- inMotion (action_server.cpp lines 448-462): some joint speed exceeds
the 0.01 threshold. -/
def inMotion (qd : List ℚ) : Bool :=
  qd.any fun v => (1 / 100 : ℚ) < |v|

/-- How one pass of the smooth-mode completion poll can end. -/
inductive PollResult
  | succeededP
  | interruptedP
  | timedOutP
deriving DecidableEq, Repr

/-- The smooth-mode completion poll (action_server.cpp lines 356-388),
one fuel unit per 1 ms iteration; the telemetry stream and the interrupt
flag are sampled per iteration.  The loop keeps running while the deadline
has not passed or the robot reports motion; inside the body it first tests
the success condition, then the interrupt flag.  Exhausted fuel (none)
means the loop is still running. -/
def pollLoop (telem : ℕ → Telemetry) (intr : ℕ → Bool) (lastPt : TrajectoryPoint)
    (deadline : ℕ) : ℕ → ℕ → Option PollResult
  | _, 0 => none
  | k, fuel + 1 =>
    if ¬(k < deadline ∨ inMotion (telem k).qd_actual = true) then some PollResult.timedOutP
    else if reachedGoal (telem k).q_actual lastPt.positions = true ∧
        inMotion (telem k).qd_actual = false then some PollResult.succeededP
    else if intr k = true then some PollResult.interruptedP
    else pollLoop telem intr lastPt deadline (k + 1) fuel

/-- Terminal reporting events the execution thread can emit for one goal,
in order. -/
inductive GEvent
  | abortedE (msg : String)
  | succeededE
  | exitedProcess
deriving DecidableEq, Repr

def hangMsg : String := "Robot has hung. "
def timeoutAbortMsg : String := "Robot motion timed out or failed to reach goal."

/-- Terminal events produced by the poll phase from its result: success
reports Succeeded, an interrupt reports nothing (the preempting thread
reports for the goal), running out the deadline reports the timed-out
abort, and a still-running loop has reported nothing yet. -/
def pollEvents (r : Option PollResult) : List GEvent :=
  match r with
  | some PollResult.succeededP => [GEvent.succeededE]
  | some PollResult.interruptedP => []
  | some PollResult.timedOutP => [GEvent.abortedE timeoutAbortMsg]
  | none => []

/-- The terminal-event trace of one goal in the execution thread
(action_server.cpp lines 331-428), given the mode toggles, whether the
follower call returned true, the telemetry and interrupt streams, the
final waypoint, the poll deadline and poll fuel.  In smooth mode a failed
follower call aborts with the hang message and then either exits the
process (kill_on_hang) or falls through into the completion poll; in timed
mode a failed call aborts (and optionally exits) and a successful call
reports Succeeded exactly when the interrupt flag is clear. -/
def trajectoryThreadGoal (use_smooth kill_on_hang followerOk : Bool)
    (telem : ℕ → Telemetry) (intr : ℕ → Bool) (lastPt : TrajectoryPoint)
    (deadline fuel : ℕ) : List GEvent :=
  if use_smooth then
    if followerOk then pollEvents (pollLoop telem intr lastPt deadline 0 fuel)
    else if kill_on_hang then [GEvent.abortedE hangMsg, GEvent.exitedProcess]
    else GEvent.abortedE hangMsg :: pollEvents (pollLoop telem intr lastPt deadline 0 fuel)
  else
    if followerOk then (if intr 0 = true then [] else [GEvent.succeededE])
    else if kill_on_hang then [GEvent.abortedE hangMsg, GEvent.exitedProcess]
    else [GEvent.abortedE hangMsg]

/-! ## Safety-state change handling -/

/-- The ActionServer fields read and written by onRobotStateChange.  The
lockHeldByExec flag models whether tj_mutex_ is currently held by the
execution thread, i.e. whether try_lock would fail. -/
structure ASState where
  state_ : RobotState
  interrupt_traj : Bool
  has_goal : Bool
  lockHeldByExec : Bool
deriving DecidableEq, Repr, Fintype

/-- The effect of one onRobotStateChange call: the updated fields and the
abort result emitted for the current goal, if any. -/
structure StateChangeEff where
  post : ASState
  abort : Option Result
deriving DecidableEq, Repr

/-- onRobotStateChange (action_server.cpp lines 44-71): always records the
new state; returns without effect on Running, when already interrupting,
when no goal is present, or when try_lock succeeds (no goal executing);
otherwise sets the interrupt flag, waits for the execution lock and aborts
the current goal with code -100 and the safety-stop message. -/
def onRobotStateChange (st : RobotState) (s : ASState) : StateChangeEff :=
  let s1 : ASState := { s with state_ := st }
  if st = RobotState.Running then ⟨s1, none⟩
  else if s1.interrupt_traj || !s1.has_goal then ⟨s1, none⟩
  else if !s1.lockHeldByExec then ⟨s1, none⟩
  else ⟨{ s1 with interrupt_traj := true }, some ⟨-100, "Robot safety stop"⟩⟩

/-! ## Telemetry parsers (include/ur_modern_driver/ur/parser.h) -/

/-- The wire message-type field. -/
inductive message_type
  | ROBOT_STATE
  | ROBOT_MESSAGE
  | otherType (code : ℕ)
deriving DecidableEq, Repr

/-- The robot_message_type field of a ROBOT_MESSAGE packet. -/
inductive robot_message_type
  | ROBOT_MESSAGE_VERSION
  | otherMsg (code : ℕ)
deriving DecidableEq, Repr

/-- The packets the three parsers can produce. -/
inductive Packet
  | statePacket
  | rtStatePacket
  | versionMessage
deriving DecidableEq, Repr

/-- Abstract view of the BinParser input buffer: the bytes available, the
leading int32 packet-size field, and the type fields the parsers read.
The payload parse_with calls of the packet classes live outside src and
are abstracted as boolean success parameters of the parse functions. -/
structure BinParser where
  buf_len : Int
  packet_size : Int
  mtype : message_type
  rm_type : robot_message_type
deriving DecidableEq, Repr

/-- BinParser::check_size: the declared packet length fits in the bytes
remaining in the buffer. -/
def check_size (bp : BinParser) (n : Int) : Bool := n ≤ bp.buf_len

/-- URStateParser::parse (parser.h lines 8-27): reads size and type, nulls
out any non ROBOT_STATE type, then delegates to the payload parser. -/
def URStateParser.parse (payload_ok : Bool) (bp : BinParser) : Option Packet :=
  if bp.mtype ≠ message_type.ROBOT_STATE then none
  else if payload_ok then some Packet.statePacket
  else none

/-- URRTStateParser::parse (parser.h lines 30-48): nulls out buffers
shorter than the declared packet size, then delegates to the payload
parser. -/
def URRTStateParser.parse (payload_ok : Bool) (bp : BinParser) : Option Packet :=
  if ¬check_size bp bp.packet_size = true then none
  else if payload_ok then some Packet.rtStatePacket
  else none

/-- URMessageParser::parse (parser.h lines 50-88): nulls out short buffers
and non ROBOT_MESSAGE types; only a ROBOT_MESSAGE_VERSION message whose
payload parses yields a packet. -/
def URMessageParser.parse (version_ok : Bool) (bp : BinParser) : Option Packet :=
  if ¬check_size bp bp.packet_size = true then none
  else if bp.mtype ≠ message_type.ROBOT_MESSAGE then none
  else
    match bp.rm_type with
    | robot_message_type.ROBOT_MESSAGE_VERSION =>
      if version_ok then some Packet.versionMessage else none
    | robot_message_type.otherMsg _ => none

/-! ## Preemption: the admission/execution interleaving

A small-step interleaving model of try_execute (action_server.cpp lines
237-260) racing against trajectoryThread (lines 279-430), from the point
where goal B has been submitted while goal A holds the execution lock:
the admission thread has just seen its try_lock fail.  Events record the
terminal callbacks and execution starts in program order. -/

/-- The two threads contending for tj_mutex_. -/
inductive Tid
  | adm
  | exec
deriving DecidableEq, Repr

/-- Program counter of the admission thread inside try_execute after a
failed try_lock: about to abort the in-flight goal, waiting for the lock,
inside the critical section, done. -/
inductive AdmPC
  | aabort
  | awaitLock
  | acritical
  | adone
deriving DecidableEq, Repr

/-- Program counter of the execution thread loop: waiting on the condition
variable, executing the current goal, finishing (lock still held). -/
inductive ExecPC
  | ewait
  | erun
  | efinish
deriving DecidableEq, Repr

/-- Observable events: a goal starts executing, or a terminal callback
fires for it. -/
inductive TEvent
  | began (g : ℕ)
  | abortedT (g : ℕ) (msg : String)
  | succeededT (g : ℕ)
deriving DecidableEq, Repr

def preemptMsg : String := "Received another trajectory"

/-- Shared state of the two threads: the mutex owner, the interrupt flag,
the single current-goal slot (has_goal_ plus curr_gh_), both program
counters and the event trace. -/
structure Sys where
  mutex : Option Tid
  intr : Bool
  has_goal : Bool
  curr : ℕ
  apc : AdmPC
  epc : ExecPC
  trace : List TEvent
deriving DecidableEq, Repr

/-- One interleaved step, with B the identity of the newly submitted
goal.  Admission steps follow try_execute: set the interrupt flag and
abort the current goal, block until the mutex is free, then store B in the
current-goal slot, clear the interrupt flag, set has_goal_, release and
notify.  Execution steps follow trajectoryThread: wake under the lock when
has_goal_ is set and begin the stored goal; while executing it may observe
the interrupt (reporting nothing), report success, or report the timed-out
abort; finishing clears has_goal_ and releases the lock. -/
inductive Step (B : ℕ) : Sys → Sys → Prop
  | admAbort (s : Sys) (h : s.apc = AdmPC.aabort) :
      Step B s { s with intr := true, apc := AdmPC.awaitLock,
                        trace := s.trace ++ [TEvent.abortedT s.curr preemptMsg] }
  | admLock (s : Sys) (h : s.apc = AdmPC.awaitLock) (hm : s.mutex = none) :
      Step B s { s with mutex := some Tid.adm, apc := AdmPC.acritical }
  | admHandoff (s : Sys) (h : s.apc = AdmPC.acritical) :
      Step B s { s with curr := B, intr := false, has_goal := true,
                        mutex := none, apc := AdmPC.adone }
  | execWake (s : Sys) (h : s.epc = ExecPC.ewait) (hm : s.mutex = none)
      (hg : s.has_goal = true) :
      Step B s { s with mutex := some Tid.exec, epc := ExecPC.erun,
                        trace := s.trace ++ [TEvent.began s.curr] }
  | execInterrupted (s : Sys) (h : s.epc = ExecPC.erun) (hi : s.intr = true) :
      Step B s { s with epc := ExecPC.efinish }
  | execSucceed (s : Sys) (h : s.epc = ExecPC.erun) :
      Step B s { s with epc := ExecPC.efinish,
                        trace := s.trace ++ [TEvent.succeededT s.curr] }
  | execTimeoutAbort (s : Sys) (h : s.epc = ExecPC.erun) :
      Step B s { s with epc := ExecPC.efinish,
                        trace := s.trace ++ [TEvent.abortedT s.curr timeoutAbortMsg] }
  | execRelease (s : Sys) (h : s.epc = ExecPC.efinish) :
      Step B s { s with has_goal := false, mutex := none, epc := ExecPC.ewait }

/-- Initial state: goal A is executing (the execution thread holds the
mutex), and the admission thread handling B has just seen try_lock fail. -/
def initSys (A : ℕ) : Sys :=
  { mutex := some Tid.exec, intr := false, has_goal := true, curr := A,
    apc := AdmPC.aabort, epc := ExecPC.erun, trace := [TEvent.began A] }

/-- Reachability by interleaved steps. -/
inductive Reaches (B : ℕ) : Sys → Sys → Prop
  | refl (s : Sys) : Reaches B s s
  | tail {s t u : Sys} : Reaches B s t → Step B t u → Reaches B s u

/-- Every occurrence of goal B beginning execution is preceded, strictly
earlier in the trace, by the preemption abort of goal A. -/
def abortPrecedes (A B : ℕ) (tr : List TEvent) : Prop :=
  ∀ n, tr.get? n = some (TEvent.began B) →
    ∃ m, m < n ∧ tr.get? m = some (TEvent.abortedT A preemptMsg)

/-- The invariant maintained by every interleaved step from the initial
preemption state: the trace orders the abort of A before any start of B,
the admission thread has emitted the abort as soon as it leaves its first
location (where the current goal is still A), the execution thread can
only find a ready goal after the handoff stored B, and each program
counter in a critical region certifies its mutex ownership. -/
def SysInv (A B : ℕ) (s : Sys) : Prop :=
  abortPrecedes A B s.trace ∧
  (s.apc ≠ AdmPC.aabort → TEvent.abortedT A preemptMsg ∈ s.trace) ∧
  (s.apc = AdmPC.aabort → s.curr = A) ∧
  (s.epc = ExecPC.ewait → s.has_goal = true → s.apc = AdmPC.adone ∧ s.curr = B) ∧
  (s.apc = AdmPC.acritical → s.mutex = some Tid.adm) ∧
  ((s.epc = ExecPC.erun ∨ s.epc = ExecPC.efinish) → s.mutex = some Tid.exec)

/-! ## Concrete inputs used by counterexamples and witnesses -/

/-- Canonical six-joint configuration. -/
def canon6 : List String := ["a", "b", "c", "d", "e", "f"]

/-- A goal joint ordering that is a 3-cycle of the first three canonical
names (not an involution). -/
def cycleNames : List String := ["b", "c", "a", "d", "e", "f"]

/-- A goal point carrying distinct position values 1..6 in the cycled
joint order. -/
def cyclePt : JointTrajPoint :=
  { positions := [1, 2, 3, 4, 5, 6].map Dbl.ofRat
    velocities := [0, 0, 0, 0, 0, 0].map Dbl.ofRat
    time_from_start := ⟨0, 0⟩ }

/-- A goal joint-name list with a duplicate whose name set still equals
the canonical set; the canonical name f sits at position 6. -/
def dupNames : List String := ["a", "a", "b", "c", "d", "e", "f"]

/-- A trajectory goal using the duplicated joint-name list, with one
well-formed six-entry point. -/
def dupGoal : JointTraj :=
  { joint_names := dupNames
    points := [⟨[0, 0, 0, 0, 0, 0].map Dbl.ofRat, [0, 0, 0, 0, 0, 0].map Dbl.ofRat, ⟨0, 0⟩⟩] }

/-- Final waypoint at the origin, total duration 2 s. -/
def lastPtZero : TrajectoryPoint := ⟨fun _ => 0, fun _ => 0, 2000000⟩

/-- Telemetry stuck far from the goal and always moving fast: never within
tolerance, always above the speed threshold. -/
def movingTelem : ℕ → Telemetry := fun _ => ⟨[10, 10, 10, 10, 10, 10], [1, 1, 1, 1, 1, 1]⟩

/-- Telemetry stuck far from the goal but at rest. -/
def farRestTelem : ℕ → Telemetry := fun _ => ⟨[10, 10, 10, 10, 10, 10], [0, 0, 0, 0, 0, 0]⟩

/-- Telemetry already at the goal and at rest. -/
def atGoalTelem : ℕ → Telemetry := fun _ => ⟨[0, 0, 0, 0, 0, 0], [0, 0, 0, 0, 0, 0]⟩

/-- A one-joint configuration for small admission examples. -/
def cfg1 : ASConfig := ⟨["a"], 1⟩

/-- A valid one-joint one-point goal. -/
def goal1 : JointTraj := ⟨["a"], [⟨[Dbl.ofRat 0], [Dbl.ofRat 0], ⟨0, 0⟩⟩]⟩

/-- A one-joint goal with an empty point list. -/
def emptyGoal : JointTraj := ⟨["a"], []⟩

/-- A two-joint swap used to instantiate the reorder theorem. -/
def swapPt : JointTrajPoint :=
  { positions := [1, 2].map Dbl.ofRat
    velocities := [3, 4].map Dbl.ofRat
    time_from_start := ⟨0, 0⟩ }

/-- A one-joint goal whose single point starts at 2 s. -/
def lateGoal : JointTraj := ⟨["a"], [⟨[Dbl.ofRat 2], [Dbl.ofRat 0], ⟨2, 0⟩⟩]⟩

/-! # Theorems -/

/-- Claim C6: the execution thread prepends a synthesized point holding
the current actual position and velocity at time 0 if and only if the
first goal point has strictly positive time_from_start; no condition on
the actual position is involved. -/
theorem c6_t0_insertion_iff (cfg : ASConfig) (q qd : ℕ → ℚ) (goal : JointTraj)
    (fp : JointTrajPoint) (rest : List JointTrajPoint) (h : goal.points = fp :: rest) :
    (0 < convert fp.time_from_start →
      buildTrajectory cfg q qd goal =
        TrajectoryPoint.mk q qd 0 ::
          goal.points.map (translatePoint (reorderMap cfg.joint_names goal.joint_names))) ∧
    (convert fp.time_from_start ≤ 0 →
      buildTrajectory cfg q qd goal =
        goal.points.map (translatePoint (reorderMap cfg.joint_names goal.joint_names))) := by
  constructor
  · intro hpos
    simp [buildTrajectory, h, hpos]
  · intro hle
    simp [buildTrajectory, h, not_lt.mpr hle]

/-- Witness for C6: a goal whose single point starts at 2 s gets exactly
the synthetic point prepended. -/
theorem c6_t0_insertion_iff_witness :
    buildTrajectory cfg1 (fun _ => 5) (fun _ => 0) lateGoal =
      TrajectoryPoint.mk (fun _ => 5) (fun _ => 0) 0 ::
        lateGoal.points.map (translatePoint (reorderMap cfg1.joint_names lateGoal.joint_names)) :=
  (c6_t0_insertion_iff cfg1 (fun _ => 5) (fun _ => 0) lateGoal _ _ rfl).1 (by decide)

/-- Claim C7: onRobotStateChange always records the state; a Running
notification, a notification while already interrupting or without a goal,
and a notification while the lock is uncontended are otherwise no-ops; a
non-Running notification during uninterrupted execution sets the interrupt
flag and aborts with code -100 and the safety-stop message; and once an
abort was emitted the next notification emits none (edge-triggered). -/
theorem c7_onRobotStateChange_cases :
    ∀ (st : RobotState) (s : ASState),
      ((onRobotStateChange st s).post.state_ = st) ∧
      (st = RobotState.Running →
        onRobotStateChange st s = ⟨{ s with state_ := st }, none⟩) ∧
      (st ≠ RobotState.Running →
        (s.interrupt_traj = true ∨ s.has_goal = false ∨ s.lockHeldByExec = false) →
        onRobotStateChange st s = ⟨{ s with state_ := st }, none⟩) ∧
      (st ≠ RobotState.Running ∧ s.interrupt_traj = false ∧ s.has_goal = true ∧
        s.lockHeldByExec = true →
        (onRobotStateChange st s).abort = some ⟨-100, "Robot safety stop"⟩ ∧
        (onRobotStateChange st s).post.interrupt_traj = true) ∧
      (∀ st2, (onRobotStateChange st s).abort.isSome = true →
        (onRobotStateChange st2 ((onRobotStateChange st s).post)).abort = none) := by
  decide

/-- Witness for C7: an emergency stop during uninterrupted execution
aborts with the safety-stop result. -/
theorem c7_onRobotStateChange_cases_witness :
    (onRobotStateChange RobotState.EmergencyStopped
        ⟨RobotState.Running, false, true, true⟩).abort =
      some ⟨-100, "Robot safety stop"⟩ :=
  ((c7_onRobotStateChange_cases RobotState.EmergencyStopped
      ⟨RobotState.Running, false, true, true⟩).2.2.2.1 ⟨by decide, rfl, rfl, rfl⟩).1

/-- Claim C9 (code bug): a goal whose joint-name list duplicates a
canonical name passes the set-based joint validation (and full goal
validation, reaching the execution thread), yet reorderMap yields the
out-of-range index 6 for the canonical joint name f, so the translation
loop writes past the end of the six-element arrays. -/
theorem c9_oob_index_eval :
    onGoal ⟨canon6, 10⟩ RobotState.Running true dupGoal = GoalOutcome.admitted ∧
    6 ∈ reorderMap canon6 dupNames ∧
    ¬∀ i ∈ reorderMap canon6 dupNames, i < 6 := by
  decide

/-- Claim C1 counterexample: with a goal joint ordering that cycles the
first three canonical names (a permutation, but not an involution), the
translated position at canonical index 0 is 2, while the goal point's
entry for the 0th configured joint name is 3 — the claimed per-index
equality fails. -/
theorem c1_counterexample :
    cycleNames.Nodup ∧ cycleNames.toFinset = canon6.toFinset ∧
    (translatePoint (reorderMap canon6 cycleNames) cyclePt).positions 0 = 2 ∧
    (cyclePt.positions.map Dbl.val).getD ((reorderMap canon6 cycleNames).getD 0 0) 0 = 3 ∧
    (translatePoint (reorderMap canon6 cycleNames) cyclePt).positions 0 ≠
      (cyclePt.positions.map Dbl.val).getD ((reorderMap canon6 cycleNames).getD 0 0) 0 := by
  decide

/-- Claim C4 (code bug): in smooth mode with kill_on_hang disabled, a
failed follower call aborts the goal with the hang message but then falls
through into the completion poll, which reports Succeeded for the same,
already aborted goal when the telemetry sits at the final waypoint. -/
theorem c4_hang_then_succeeded_eval :
    trajectoryThreadGoal true false false atGoalTelem (fun _ => false) lastPtZero 3 10 =
      [GEvent.abortedE hangMsg, GEvent.succeededE] := by
  have hr0 : reachedGoal (atGoalTelem 0).q_actual lastPtZero.positions = true := by
    rw [reachedGoal, List.all_eq_true]
    intro i hi
    simp only [atGoalTelem, lastPtZero, List.mem_range, List.length_cons,
      List.length_nil] at hi ⊢
    interval_cases i <;> norm_num
  have hm0 : inMotion (atGoalTelem 0).qd_actual = false := by
    simp only [inMotion, atGoalTelem, List.any_cons, List.any_nil]
    norm_num
  have hp : pollLoop atGoalTelem (fun _ => false) lastPtZero 3 0 10 =
      some PollResult.succeededP := by
    simp [pollLoop, hr0, hm0]
  simp [trajectoryThreadGoal, hp, pollEvents]

/-- Claim C8 counterexample: a goal with an empty point list (valid state,
matching joint set) is rejected with error code INVALID_GOAL but an empty
error message — no human-readable explanation is attached. -/
theorem c8_counterexample :
    onGoal cfg1 RobotState.Running true emptyGoal =
      GoalOutcome.rejected ⟨Result.INVALID_GOAL, ""⟩ ∧
    (Result.mk Result.INVALID_GOAL "").error_string.length = 0 := by
  decide

/-- The always-moving far-away telemetry keeps inMotion true at every
tick. -/
theorem movingTelem_inMotion (k : ℕ) : inMotion (movingTelem k).qd_actual = true := by
  simp only [inMotion, movingTelem, List.any_cons, List.any_nil]
  norm_num

/-- The always-moving far-away telemetry is never within tolerance of the
origin waypoint. -/
theorem movingTelem_notReached (k : ℕ) :
    reachedGoal (movingTelem k).q_actual lastPtZero.positions = false := by
  rw [reachedGoal]
  simp only [movingTelem, lastPtZero, List.all_eq_false]
  refine ⟨0, by simp, ?_⟩
  norm_num

/-- With the always-moving telemetry the completion poll never returns:
the loop guard stays true past the deadline (inMotion holds), the success
check needs inMotion false, and the interrupt flag stays clear. -/
theorem pollLoop_moving_none :
    ∀ (fuel k : ℕ), pollLoop movingTelem (fun _ => false) lastPtZero 3 k fuel = none := by
  intro fuel
  induction fuel with
  | zero => intro k; rfl
  | succ n ih =>
    intro k
    have hm := movingTelem_inMotion k
    have hr := movingTelem_notReached k
    simp only [pollLoop, hm, hr]
    simpa using ih (k + 1)

/-- Claim C5 counterexample: a telemetry stream that never satisfies the
success condition because every joint speed stays above the 0.01
threshold; the poll phase never reports the timed-out abort at any time,
in particular not at the 1.5 x duration bound (deadline 3, arbitrarily
much fuel). -/
theorem c5_counterexample :
    (∀ k, ¬(reachedGoal (movingTelem k).q_actual lastPtZero.positions = true ∧
            inMotion (movingTelem k).qd_actual = false)) ∧
    ¬∃ n, pollLoop movingTelem (fun _ => false) lastPtZero 3 0 n =
        some PollResult.timedOutP := by
  constructor
  · intro k h
    rw [movingTelem_inMotion k] at h
    exact Bool.noConfusion h.2
  · rintro ⟨n, hn⟩
    rw [pollLoop_moving_none n 0] at hn
    exact Option.noConfusion hn

/-- Claim C5 amended: if the stream never satisfies the success condition
and no cancellation arrives, the poll loop reports the timed-out abort as
soon as it samples a tick at or past the deadline whose joint speeds are
all below the threshold; a tick with some speed at or above the threshold
keeps the loop running even past the deadline. -/
theorem c5_amended_timeout :
    ∀ (telem : ℕ → Telemetry) (lastPt : TrajectoryPoint) (deadline fuel k : ℕ),
      (∀ j, ¬(reachedGoal (telem j).q_actual lastPt.positions = true ∧
              inMotion (telem j).qd_actual = false)) →
      (∃ m, k ≤ m ∧ m < k + fuel ∧ deadline ≤ m ∧ inMotion (telem m).qd_actual = false) →
      pollLoop telem (fun _ => false) lastPt deadline k fuel = some PollResult.timedOutP := by
  intro telem lastPt deadline fuel
  induction fuel with
  | zero =>
    intro k h1 hex
    rcases hex with ⟨m, hkm, hlt, _, _⟩
    omega
  | succ n ih =>
    intro k h1 hex
    rcases hex with ⟨m, hkm, hlt, hdm, hnm⟩
    rw [pollLoop]
    by_cases hg : k < deadline ∨ inMotion (telem k).qd_actual = true
    · rw [if_neg (not_not_intro hg), if_neg (h1 k), if_neg (by simp)]
      apply ih
      · exact h1
      · refine ⟨m, ?_, by omega, hdm, hnm⟩
        have hne : m ≠ k := by
          intro e
          subst e
          rcases hg with hg | hg
          · omega
          · rw [hnm] at hg
            exact Bool.noConfusion hg
        omega
    · rw [if_pos hg]

/-- Witness for the amended C5: far-from-goal telemetry at rest makes the
poll report the timed-out abort once the deadline (3) has passed. -/
theorem c5_amended_timeout_witness :
    pollLoop farRestTelem (fun _ => false) lastPtZero 3 0 10 = some PollResult.timedOutP :=
  c5_amended_timeout farRestTelem lastPtZero 3 10 0
    (fun j h => by
      have hfar : reachedGoal (farRestTelem j).q_actual lastPtZero.positions = false := by
        rw [reachedGoal]
        simp only [farRestTelem, lastPtZero, List.all_eq_false]
        refine ⟨0, by simp, ?_⟩
        norm_num
      rw [hfar] at h
      exact Bool.noConfusion h.1)
    ⟨3, by omega, by omega, by omega, by
      simp only [inMotion, farRestTelem, List.any_cons, List.any_nil]
      norm_num⟩

/-- Claim C10: URStateParser yields null for any non ROBOT_STATE type;
URRTStateParser and URMessageParser yield null whenever the buffer is
shorter than the declared packet size; URMessageParser yields a packet
only for a ROBOT_MESSAGE carrying a ROBOT_MESSAGE_VERSION whose payload
parses, and that packet is the version message. -/
theorem c10_parsers_reject_malformed :
    ∀ (bp : BinParser) (payload_ok version_ok : Bool),
      (bp.mtype ≠ message_type.ROBOT_STATE → URStateParser.parse payload_ok bp = none) ∧
      (bp.buf_len < bp.packet_size → URRTStateParser.parse payload_ok bp = none) ∧
      (bp.buf_len < bp.packet_size → URMessageParser.parse version_ok bp = none) ∧
      (∀ p, URMessageParser.parse version_ok bp = some p →
        bp.mtype = message_type.ROBOT_MESSAGE ∧
        bp.rm_type = robot_message_type.ROBOT_MESSAGE_VERSION ∧
        version_ok = true ∧ p = Packet.versionMessage) := by
  intro bp payload_ok version_ok
  have hcs : bp.buf_len < bp.packet_size → ¬check_size bp bp.packet_size = true := by
    intro h
    simp [check_size, not_le.mpr h]
  refine ⟨?_, ?_, ?_, ?_⟩
  · intro h
    simp [URStateParser.parse, h]
  · intro h
    simp [URRTStateParser.parse, hcs h]
  · intro h
    simp [URMessageParser.parse, hcs h]
  · intro p h
    rw [URMessageParser.parse] at h
    by_cases h1 : ¬check_size bp bp.packet_size = true
    · rw [if_pos h1] at h
      exact Option.noConfusion h
    · rw [if_neg h1] at h
      by_cases h2 : bp.mtype ≠ message_type.ROBOT_MESSAGE
      · rw [if_pos h2] at h
        exact Option.noConfusion h
      · rw [if_neg h2] at h
        rcases hr : bp.rm_type with _ | code
        · rw [hr] at h
          by_cases hv : version_ok
          · rw [if_pos hv] at h
            refine ⟨not_not.mp h2, hr ▸ rfl, hv, ?_⟩
            exact (Option.some.injEq _ _ ▸ h).symm
          · rw [if_neg hv] at h
            exact Option.noConfusion h
        · rw [hr] at h
          exact Option.noConfusion h

/-- Witness for C10: a buffer declaring 100 bytes with only 10 available
is rejected by the RT-state parser. -/
theorem c10_parsers_reject_malformed_witness :
    URRTStateParser.parse true ⟨10, 100, message_type.ROBOT_STATE,
      robot_message_type.ROBOT_MESSAGE_VERSION⟩ = none :=
  (c10_parsers_reject_malformed
    ⟨10, 100, message_type.ROBOT_STATE, robot_message_type.ROBOT_MESSAGE_VERSION⟩
    true true).2.1 (by decide)

/-- The velocity loop passes exactly when every velocity is finite with
magnitude at most the bound. -/
theorem checkVels_true_iff (m : ℚ) (vs : List Dbl) (r : Result) :
    (checkVels m vs r).1 = true ↔ ∀ v ∈ vs, v.finite = true ∧ |v.val| ≤ m := by
  induction vs generalizing r with
  | nil => simp [checkVels]
  | cons v rest ih =>
    by_cases hf : v.finite = true
    · by_cases hm : m < |v.val|
      · rw [show checkVels m (v :: rest) r =
            (false, { r with error_string := velOverMsg m }) from by
          simp [checkVels, hf, hm]]
        constructor
        · intro h; exact Bool.noConfusion h
        · intro h; exact absurd (h v (List.mem_cons_self v rest)).2 (not_le.mpr hm)
      · rw [show checkVels m (v :: rest) r = checkVels m rest r from by
          simp [checkVels, hf, hm]]
        rw [ih r]
        constructor
        · intro h x hx
          rcases List.mem_cons.mp hx with hx | hx
          · subst hx; exact ⟨hf, not_lt.mp hm⟩
          · exact h x hx
        · intro h x hx
          exact h x (List.mem_cons_of_mem v hx)
    · rw [show checkVels m (v :: rest) r =
          (false, { r with error_string := velFiniteMsg }) from by
        simp [checkVels, hf]]
      constructor
      · intro h; exact Bool.noConfusion h
      · intro h; exact absurd (h v (List.mem_cons_self v rest)).1 hf

/-- The position loop passes exactly when every position is finite. -/
theorem checkPoss_true_iff (ps : List Dbl) (r : Result) :
    (checkPoss ps r).1 = true ↔ ∀ q ∈ ps, q.finite = true := by
  induction ps generalizing r with
  | nil => simp [checkPoss]
  | cons p rest ih =>
    by_cases hf : p.finite = true
    · rw [show checkPoss (p :: rest) r = checkPoss rest r from by simp [checkPoss, hf]]
      rw [ih r]
      constructor
      · intro h x hx
        rcases List.mem_cons.mp hx with hx | hx
        · subst hx; exact hf
        · exact h x hx
      · intro h x hx
        exact h x (List.mem_cons_of_mem p hx)
    · rw [show checkPoss (p :: rest) r =
          (false, { r with error_string := posFiniteMsg }) from by
        simp [checkPoss, hf]]
      constructor
      · intro h; exact Bool.noConfusion h
      · intro h; exact absurd (h p (List.mem_cons_self p rest)) hf

/-- One point passes exactly when both vectors have the configured length,
velocities are finite and bounded, and positions are finite. -/
theorem checkPoint_true_iff (cfg : ASConfig) (p : JointTrajPoint) (r : Result) :
    (checkPoint cfg p r).1 = true ↔
      p.velocities.length = cfg.joint_names.length ∧
      p.positions.length = cfg.joint_names.length ∧
      (∀ v ∈ p.velocities, v.finite = true ∧ |v.val| ≤ cfg.max_velocity) ∧
      (∀ q ∈ p.positions, q.finite = true) := by
  by_cases h1 : p.velocities.length = cfg.joint_names.length
  · by_cases h2 : p.positions.length = cfg.joint_names.length
    · rcases hcv : checkVels cfg.max_velocity p.velocities r with ⟨bv, rv⟩
      cases bv with
      | false =>
        rw [show checkPoint cfg p r = (false, rv) from by simp [checkPoint, h1, h2, hcv]]
        have hv : ¬∀ v ∈ p.velocities, v.finite = true ∧ |v.val| ≤ cfg.max_velocity := by
          rw [← checkVels_true_iff cfg.max_velocity p.velocities r, hcv]
          simp
        constructor
        · intro h; exact Bool.noConfusion h
        · intro h; exact absurd h.2.2.1 hv
      | true =>
        rw [show checkPoint cfg p r = checkPoss p.positions rv from by
          simp [checkPoint, h1, h2, hcv]]
        rw [checkPoss_true_iff]
        have hv : ∀ v ∈ p.velocities, v.finite = true ∧ |v.val| ≤ cfg.max_velocity := by
          rw [← checkVels_true_iff cfg.max_velocity p.velocities r, hcv]
        constructor
        · intro h; exact ⟨h1, h2, hv, h⟩
        · intro h; exact h.2.2.2
    · rw [show checkPoint cfg p r =
          (false, { r with error_code := Result.INVALID_GOAL, error_string := posSizeMsg })
          from by simp [checkPoint, h1, h2]]
      constructor
      · intro h; exact Bool.noConfusion h
      · intro h; exact absurd h.2.1 h2
  · rw [show checkPoint cfg p r =
        (false, { r with error_code := Result.INVALID_GOAL, error_string := velSizeMsg })
        from by simp [checkPoint, h1]]
    constructor
    · intro h; exact Bool.noConfusion h
    · intro h; exact absurd h.1 h1

/-- The point loop passes exactly when every point passes. -/
theorem checkPoints_true_iff (cfg : ASConfig) (pts : List JointTrajPoint) (r : Result) :
    (checkPoints cfg pts r).1 = true ↔
      ∀ p ∈ pts,
        p.velocities.length = cfg.joint_names.length ∧
        p.positions.length = cfg.joint_names.length ∧
        (∀ v ∈ p.velocities, v.finite = true ∧ |v.val| ≤ cfg.max_velocity) ∧
        (∀ q ∈ p.positions, q.finite = true) := by
  induction pts generalizing r with
  | nil => simp [checkPoints]
  | cons p rest ih =>
    rcases hcp : checkPoint cfg p r with ⟨b, r2⟩
    cases b with
    | false =>
      rw [show checkPoints cfg (p :: rest) r = (false, r2) from by simp [checkPoints, hcp]]
      have hp : ¬(p.velocities.length = cfg.joint_names.length ∧
          p.positions.length = cfg.joint_names.length ∧
          (∀ v ∈ p.velocities, v.finite = true ∧ |v.val| ≤ cfg.max_velocity) ∧
          (∀ q ∈ p.positions, q.finite = true)) := by
        rw [← checkPoint_true_iff cfg p r, hcp]
        simp
      constructor
      · intro h; exact Bool.noConfusion h
      · intro h; exact absurd (h p (List.mem_cons_self p rest)) hp
    | true =>
      rw [show checkPoints cfg (p :: rest) r = checkPoints cfg rest r2 from by
        simp [checkPoints, hcp]]
      rw [ih r2]
      have hp : p.velocities.length = cfg.joint_names.length ∧
          p.positions.length = cfg.joint_names.length ∧
          (∀ v ∈ p.velocities, v.finite = true ∧ |v.val| ≤ cfg.max_velocity) ∧
          (∀ q ∈ p.positions, q.finite = true) := by
        rw [← checkPoint_true_iff cfg p r, hcp]
      constructor
      · intro h x hx
        rcases List.mem_cons.mp hx with hx | hx
        · subst hx; exact hp
        · exact h x hx
      · intro h x hx
        exact h x (List.mem_cons_of_mem p hx)

/-- validateTrajectory passes exactly when the point list is nonempty and
every point passes. -/
theorem validateTrajectory_true_iff (cfg : ASConfig) (goal : JointTraj) (r : Result) :
    (validateTrajectory cfg goal r).1 = true ↔
      goal.points ≠ [] ∧
      ∀ p ∈ goal.points,
        p.velocities.length = cfg.joint_names.length ∧
        p.positions.length = cfg.joint_names.length ∧
        (∀ v ∈ p.velocities, v.finite = true ∧ |v.val| ≤ cfg.max_velocity) ∧
        (∀ q ∈ p.positions, q.finite = true) := by
  by_cases he : goal.points = []
  · simp [validateTrajectory, he]
  · have hlen : ¬goal.points.length < 1 := by
      intro h
      exact he (List.length_eq_zero.mp (Nat.lt_one_iff.mp h))
    rw [show validateTrajectory cfg goal r =
        checkPoints cfg goal.points { r with error_code := Result.INVALID_GOAL } from by
      simp [validateTrajectory, hlen]]
    rw [checkPoints_true_iff]
    simp [he]

/-- validateState passes exactly in the Running state. -/
theorem validateState_true_iff (st : RobotState) (r : Result) :
    (validateState st r).1 = true ↔ st = RobotState.Running := by
  cases st <;> simp [validateState]

/-- validateJoints passes exactly on joint-name set equality. -/
theorem validateJoints_true_iff (cfg : ASConfig) (goal : JointTraj) (r : Result) :
    (validateJoints cfg goal r).1 = true ↔
      goal.joint_names.toFinset = cfg.joint_names.toFinset := by
  by_cases h : goal.joint_names.toFinset = cfg.joint_names.toFinset <;>
    simp [validateJoints, h]

/-- validate passes exactly when all three validators pass. -/
theorem validate_true_iff (cfg : ASConfig) (st : RobotState) (goal : JointTraj) (r : Result) :
    (validate cfg st goal r).1 = true ↔
      st = RobotState.Running ∧
      goal.joint_names.toFinset = cfg.joint_names.toFinset ∧
      goal.points ≠ [] ∧
      ∀ p ∈ goal.points,
        p.velocities.length = cfg.joint_names.length ∧
        p.positions.length = cfg.joint_names.length ∧
        (∀ v ∈ p.velocities, v.finite = true ∧ |v.val| ≤ cfg.max_velocity) ∧
        (∀ q ∈ p.positions, q.finite = true) := by
  rcases hs : validateState st r with ⟨b1, r1⟩
  cases b1 with
  | false =>
    have hst : ¬st = RobotState.Running := by
      rw [← validateState_true_iff st r, hs]
      simp
    rw [show validate cfg st goal r = (false, r1) from by simp [validate, hs]]
    constructor
    · intro h; exact Bool.noConfusion h
    · intro h; exact absurd h.1 hst
  | true =>
    have hst : st = RobotState.Running := by
      rw [← validateState_true_iff st r, hs]
    rcases hj : validateJoints cfg goal r1 with ⟨b2, r2⟩
    cases b2 with
    | false =>
      have hjn : ¬goal.joint_names.toFinset = cfg.joint_names.toFinset := by
        rw [← validateJoints_true_iff cfg goal r1, hj]
        simp
      rw [show validate cfg st goal r = (false, r2) from by simp [validate, hs, hj]]
      constructor
      · intro h; exact Bool.noConfusion h
      · intro h; exact absurd h.2.1 hjn
    | true =>
      have hjn : goal.joint_names.toFinset = cfg.joint_names.toFinset := by
        rw [← validateJoints_true_iff cfg goal r1, hj]
      rw [show validate cfg st goal r = validateTrajectory cfg goal r2 from by
        simp [validate, hs, hj]]
      rw [validateTrajectory_true_iff]
      constructor
      · intro h; exact ⟨hst, hjn, h.1, h.2⟩
      · intro h; exact ⟨h.2.2.1, h.2.2.2⟩

/-- The branches of the velocity loop never touch the error code. -/
theorem checkVels_snd_code (m : ℚ) (vs : List Dbl) (r : Result) :
    ((checkVels m vs r).2).error_code = r.error_code := by
  induction vs generalizing r with
  | nil => rfl
  | cons v rest ih =>
    by_cases hf : v.finite = true
    · by_cases hm : m < |v.val|
      · simp [checkVels, hf, hm]
      · simp [checkVels, hf, hm, ih]
    · simp [checkVels, hf]

/-- The branches of the position loop never touch the error code. -/
theorem checkPoss_snd_code (ps : List Dbl) (r : Result) :
    ((checkPoss ps r).2).error_code = r.error_code := by
  induction ps generalizing r with
  | nil => rfl
  | cons p rest ih =>
    by_cases hf : p.finite = true
    · simp [checkPoss, hf, ih]
    · simp [checkPoss, hf]

/-- checkPoint keeps an INVALID_GOAL error code. -/
theorem checkPoint_snd_code (cfg : ASConfig) (p : JointTrajPoint) (r : Result)
    (h : r.error_code = Result.INVALID_GOAL) :
    ((checkPoint cfg p r).2).error_code = Result.INVALID_GOAL := by
  by_cases h1 : p.velocities.length = cfg.joint_names.length
  · by_cases h2 : p.positions.length = cfg.joint_names.length
    · rcases hcv : checkVels cfg.max_velocity p.velocities r with ⟨bv, rv⟩
      have hrv : rv.error_code = Result.INVALID_GOAL := by
        have := checkVels_snd_code cfg.max_velocity p.velocities r
        rw [hcv] at this
        rw [this, h]
      cases bv with
      | false =>
        simp [checkPoint, h1, h2, hcv, hrv]
      | true =>
        rw [show checkPoint cfg p r = checkPoss p.positions rv from by
          simp [checkPoint, h1, h2, hcv]]
        rw [checkPoss_snd_code, hrv]
    · simp [checkPoint, h1, h2]
  · simp [checkPoint, h1]

/-- The point loop keeps an INVALID_GOAL error code. -/
theorem checkPoints_snd_code (cfg : ASConfig) (pts : List JointTrajPoint) (r : Result)
    (h : r.error_code = Result.INVALID_GOAL) :
    ((checkPoints cfg pts r).2).error_code = Result.INVALID_GOAL := by
  induction pts generalizing r with
  | nil => rw [show (checkPoints cfg [] r).2 = r from rfl, h]
  | cons p rest ih =>
    rcases hcp : checkPoint cfg p r with ⟨b, r2⟩
    have hr2 : r2.error_code = Result.INVALID_GOAL := by
      have := checkPoint_snd_code cfg p r h
      rw [hcp] at this
      exact this
    cases b with
    | false => simp [checkPoints, hcp, hr2]
    | true =>
      rw [show checkPoints cfg (p :: rest) r = checkPoints cfg rest r2 from by
        simp [checkPoints, hcp]]
      exact ih r2 hr2

/-- Every outcome of validateTrajectory carries the INVALID_GOAL code. -/
theorem validateTrajectory_snd_code (cfg : ASConfig) (goal : JointTraj) (r : Result) :
    ((validateTrajectory cfg goal r).2).error_code = Result.INVALID_GOAL := by
  by_cases hlen : goal.points.length < 1
  · simp [validateTrajectory, hlen]
  · rw [show validateTrajectory cfg goal r =
        checkPoints cfg goal.points { r with error_code := Result.INVALID_GOAL } from by
      simp [validateTrajectory, hlen]]
    exact checkPoints_snd_code cfg goal.points _ rfl

/-- A failed joint validation carries the INVALID_JOINTS code. -/
theorem validateJoints_snd_code (cfg : ASConfig) (goal : JointTraj) (r : Result)
    (h : goal.joint_names.toFinset ≠ cfg.joint_names.toFinset) :
    ((validateJoints cfg goal r).2).error_code = Result.INVALID_JOINTS := by
  simp [validateJoints, h]

/-- Claim C3: with the server started, onGoal admits a goal exactly when
the robot is Running, the goal joint-name set equals the configured set,
the trajectory is nonempty, all vectors have the configured length with
finite values, and every velocity magnitude is at most max_velocity;
otherwise it rejects synchronously, with INVALID_JOINTS on a joint-set
mismatch and INVALID_GOAL on any trajectory-content failure. -/
theorem c3_admission_iff (cfg : ASConfig) (st : RobotState) (goal : JointTraj) :
    (onGoal cfg st true goal = GoalOutcome.admitted ↔
      (st = RobotState.Running ∧
       goal.joint_names.toFinset = cfg.joint_names.toFinset ∧
       goal.points ≠ [] ∧
       ∀ p ∈ goal.points,
         p.velocities.length = cfg.joint_names.length ∧
         p.positions.length = cfg.joint_names.length ∧
         (∀ v ∈ p.velocities, v.finite = true ∧ |v.val| ≤ cfg.max_velocity) ∧
         (∀ q ∈ p.positions, q.finite = true))) ∧
    (st = RobotState.Running → goal.joint_names.toFinset ≠ cfg.joint_names.toFinset →
      ∃ r, onGoal cfg st true goal = GoalOutcome.rejected r ∧
        r.error_code = Result.INVALID_JOINTS) ∧
    (st = RobotState.Running → goal.joint_names.toFinset = cfg.joint_names.toFinset →
      ¬(goal.points ≠ [] ∧
        ∀ p ∈ goal.points,
          p.velocities.length = cfg.joint_names.length ∧
          p.positions.length = cfg.joint_names.length ∧
          (∀ v ∈ p.velocities, v.finite = true ∧ |v.val| ≤ cfg.max_velocity) ∧
          (∀ q ∈ p.positions, q.finite = true)) →
      ∃ r, onGoal cfg st true goal = GoalOutcome.rejected r ∧
        r.error_code = Result.INVALID_GOAL) := by
  refine ⟨?_, ?_, ?_⟩
  · rcases hv : validate cfg st goal ⟨-100, ""⟩ with ⟨b, r⟩
    cases b with
    | false =>
      rw [show onGoal cfg st true goal = GoalOutcome.rejected r from by simp [onGoal, hv]]
      have hc : ¬(st = RobotState.Running ∧
          goal.joint_names.toFinset = cfg.joint_names.toFinset ∧
          goal.points ≠ [] ∧
          ∀ p ∈ goal.points,
            p.velocities.length = cfg.joint_names.length ∧
            p.positions.length = cfg.joint_names.length ∧
            (∀ v ∈ p.velocities, v.finite = true ∧ |v.val| ≤ cfg.max_velocity) ∧
            (∀ q ∈ p.positions, q.finite = true)) := by
        rw [← validate_true_iff cfg st goal ⟨-100, ""⟩, hv]
        simp
      constructor
      · intro h; exact GoalOutcome.noConfusion h
      · intro h; exact absurd h hc
    | true =>
      rw [show onGoal cfg st true goal = GoalOutcome.admitted from by simp [onGoal, hv]]
      have hc : st = RobotState.Running ∧
          goal.joint_names.toFinset = cfg.joint_names.toFinset ∧
          goal.points ≠ [] ∧
          ∀ p ∈ goal.points,
            p.velocities.length = cfg.joint_names.length ∧
            p.positions.length = cfg.joint_names.length ∧
            (∀ v ∈ p.velocities, v.finite = true ∧ |v.val| ≤ cfg.max_velocity) ∧
            (∀ q ∈ p.positions, q.finite = true) := by
        rw [← validate_true_iff cfg st goal ⟨-100, ""⟩, hv]
      exact ⟨fun _ => hc, fun _ => rfl⟩
  · intro hst hjn
    subst hst
    rcases hj : validateJoints cfg goal ⟨-100, ""⟩ with ⟨b2, r2⟩
    cases b2 with
    | true =>
      have := validateJoints_true_iff cfg goal ⟨-100, ""⟩
      rw [hj] at this
      exact absurd (this.mp rfl) hjn
    | false =>
      refine ⟨r2, ?_, ?_⟩
      · simp [onGoal, validate, validateState, hj]
      · have hcode := validateJoints_snd_code cfg goal ⟨-100, ""⟩ hjn
        rw [hj] at hcode
        exact hcode
  · intro hst hjn hbad
    subst hst
    rcases ht : validateTrajectory cfg goal ⟨-100, ""⟩ with ⟨b3, r3⟩
    cases b3 with
    | true =>
      have := validateTrajectory_true_iff cfg goal ⟨-100, ""⟩
      rw [ht] at this
      exact absurd (this.mp rfl) hbad
    | false =>
      refine ⟨r3, ?_, ?_⟩
      · simp [onGoal, validate, validateState, validateJoints, hjn, ht]
      · have := validateTrajectory_snd_code cfg goal ⟨-100, ""⟩
        rw [ht] at this
        exact this

/-- Witness for C3: a valid one-joint one-point goal is admitted. -/
theorem c3_admission_iff_witness :
    onGoal cfg1 RobotState.Running true goal1 = GoalOutcome.admitted :=
  (c3_admission_iff cfg1 RobotState.Running goal1).1.mpr
    ⟨rfl, by decide, by decide, by decide⟩

/-- The over-speed message is the fixed prefix plus the rendered bound, so
it is at least 67 characters long. -/
theorem velOverMsg_length (m : ℚ) : 67 ≤ (velOverMsg m).length := by
  rw [velOverMsg, String.length_append]
  have h : velOverPre.length = 67 := by decide
  omega

/-- A failing velocity loop reports the non-finite or the over-speed
message. -/
theorem checkVels_false_msg (m : ℚ) (vs : List Dbl) (r r2 : Result)
    (h : checkVels m vs r = (false, r2)) :
    r2.error_string = velFiniteMsg ∨ r2.error_string = velOverMsg m := by
  induction vs generalizing r with
  | nil => simp [checkVels] at h
  | cons v rest ih =>
    by_cases hf : v.finite = true
    · by_cases hm : m < |v.val|
      · rw [show checkVels m (v :: rest) r =
            (false, { r with error_string := velOverMsg m }) from by
          simp [checkVels, hf, hm]] at h
        injection h with h1 h2
        rw [← h2]
        exact Or.inr rfl
      · rw [show checkVels m (v :: rest) r = checkVels m rest r from by
          simp [checkVels, hf, hm]] at h
        exact ih r h
    · rw [show checkVels m (v :: rest) r =
          (false, { r with error_string := velFiniteMsg }) from by
        simp [checkVels, hf]] at h
      injection h with h1 h2
      rw [← h2]
      exact Or.inl rfl

/-- A failing position loop reports the non-finite-positions message. -/
theorem checkPoss_false_msg (ps : List Dbl) (r r2 : Result)
    (h : checkPoss ps r = (false, r2)) : r2.error_string = posFiniteMsg := by
  induction ps generalizing r with
  | nil => simp [checkPoss] at h
  | cons p rest ih =>
    by_cases hf : p.finite = true
    · rw [show checkPoss (p :: rest) r = checkPoss rest r from by simp [checkPoss, hf]] at h
      exact ih r h
    · rw [show checkPoss (p :: rest) r =
          (false, { r with error_string := posFiniteMsg }) from by
        simp [checkPoss, hf]] at h
      injection h with h1 h2
      rw [← h2]

/-- A failing point check reports one of the five trajectory messages. -/
theorem checkPoint_false_msg (cfg : ASConfig) (p : JointTrajPoint) (r r2 : Result)
    (h : checkPoint cfg p r = (false, r2)) :
    r2.error_string = velSizeMsg ∨ r2.error_string = posSizeMsg ∨
    r2.error_string = velFiniteMsg ∨ r2.error_string = velOverMsg cfg.max_velocity ∨
    r2.error_string = posFiniteMsg := by
  by_cases h1 : p.velocities.length = cfg.joint_names.length
  · by_cases h2 : p.positions.length = cfg.joint_names.length
    · rcases hcv : checkVels cfg.max_velocity p.velocities r with ⟨bv, rv⟩
      cases bv with
      | false =>
        rw [show checkPoint cfg p r = (false, rv) from by simp [checkPoint, h1, h2, hcv]] at h
        injection h with h3 h4
        rcases checkVels_false_msg cfg.max_velocity p.velocities r rv hcv with h5 | h5
        · rw [← h4]; exact Or.inr (Or.inr (Or.inl h5))
        · rw [← h4]; exact Or.inr (Or.inr (Or.inr (Or.inl h5)))
      | true =>
        rw [show checkPoint cfg p r = checkPoss p.positions rv from by
          simp [checkPoint, h1, h2, hcv]] at h
        exact Or.inr (Or.inr (Or.inr (Or.inr (checkPoss_false_msg p.positions rv r2 h))))
    · rw [show checkPoint cfg p r =
          (false, { r with error_code := Result.INVALID_GOAL, error_string := posSizeMsg })
          from by simp [checkPoint, h1, h2]] at h
      injection h with h3 h4
      rw [← h4]
      exact Or.inr (Or.inl rfl)
  · rw [show checkPoint cfg p r =
        (false, { r with error_code := Result.INVALID_GOAL, error_string := velSizeMsg })
        from by simp [checkPoint, h1]] at h
    injection h with h3 h4
    rw [← h4]
    exact Or.inl rfl

/-- A failing point loop reports one of the five trajectory messages. -/
theorem checkPoints_false_msg (cfg : ASConfig) (pts : List JointTrajPoint) (r r2 : Result)
    (h : checkPoints cfg pts r = (false, r2)) :
    r2.error_string = velSizeMsg ∨ r2.error_string = posSizeMsg ∨
    r2.error_string = velFiniteMsg ∨ r2.error_string = velOverMsg cfg.max_velocity ∨
    r2.error_string = posFiniteMsg := by
  induction pts generalizing r with
  | nil => simp [checkPoints] at h
  | cons p rest ih =>
    rcases hcp : checkPoint cfg p r with ⟨b, rr⟩
    cases b with
    | false =>
      rw [show checkPoints cfg (p :: rest) r = (false, rr) from by simp [checkPoints, hcp]] at h
      injection h with h3 h4
      rw [← h4]
      exact checkPoint_false_msg cfg p r rr hcp
    | true =>
      rw [show checkPoints cfg (p :: rest) r = checkPoints cfg rest rr from by
        simp [checkPoints, hcp]] at h
      exact ih rr h

/-- A failing joint validation carries a message starting with the fixed
28-character prefix, hence non-empty. -/
theorem validateJoints_false_msg (cfg : ASConfig) (goal : JointTraj) (r r2 : Result)
    (hne : goal.joint_names.toFinset ≠ cfg.joint_names.toFinset)
    (h : validateJoints cfg goal r = (false, r2)) : r2.error_string ≠ "" := by
  rw [show validateJoints cfg goal r =
      (false,
        { error_code := Result.INVALID_JOINTS
          error_string :=
            "Invalid joint names for goal\n" ++ "Expected: " ++
              joinComma goal.joint_names.dedup ++ "\nFound: " ++
              joinComma cfg.joint_names.dedup }) from by
    simp [validateJoints, hne]] at h
  injection h with h1 h2
  rw [← h2]
  intro he
  have hlen := congrArg String.length he
  simp only [String.length_append] at hlen
  have hp : ("Invalid joint names for goal\n").length = 29 := by decide
  have hz : ("" : String).length = 0 := by decide
  omega

/-- Claim C8 amended: every synchronous rejection of a goal with a
nonempty trajectory carries a non-empty message; the empty-trajectory
rejection carries the INVALID_GOAL code but an empty message; and the
size-mismatch, non-finite and over-speed messages are pairwise distinct
and non-empty. -/
theorem c8_amended_messages :
    (∀ (cfg : ASConfig) (st : RobotState) (goal : JointTraj) (r : Result),
        onGoal cfg st true goal = GoalOutcome.rejected r → goal.points ≠ [] →
        r.error_string ≠ "") ∧
    (∀ (cfg : ASConfig) (goal : JointTraj) (r : Result),
        goal.points = [] → goal.joint_names.toFinset = cfg.joint_names.toFinset →
        onGoal cfg RobotState.Running true goal = GoalOutcome.rejected r →
        r.error_string = "" ∧ r.error_code = Result.INVALID_GOAL) ∧
    (velSizeMsg ≠ posSizeMsg ∧ velSizeMsg ≠ velFiniteMsg ∧ velSizeMsg ≠ posFiniteMsg ∧
     posSizeMsg ≠ velFiniteMsg ∧ posSizeMsg ≠ posFiniteMsg ∧ velFiniteMsg ≠ posFiniteMsg ∧
     velSizeMsg ≠ "" ∧ posSizeMsg ≠ "" ∧ velFiniteMsg ≠ "" ∧ posFiniteMsg ≠ "") ∧
    (∀ m : ℚ, velOverMsg m ≠ velSizeMsg ∧ velOverMsg m ≠ posSizeMsg ∧
      velOverMsg m ≠ velFiniteMsg ∧ velOverMsg m ≠ posFiniteMsg ∧ velOverMsg m ≠ "") := by
  have hover : ∀ (m : ℚ) (s : String), s.length < 67 → velOverMsg m ≠ s := by
    intro m s hs he
    have hl := congrArg String.length he
    have h67 := velOverMsg_length m
    omega
  refine ⟨?_, ?_, ?_, ?_⟩
  · intro cfg st goal r hrej hne
    rcases hv : validate cfg st goal ⟨-100, ""⟩ with ⟨b, rr⟩
    cases b with
    | true =>
      rw [show onGoal cfg st true goal = GoalOutcome.admitted from by simp [onGoal, hv]] at hrej
      exact GoalOutcome.noConfusion hrej
    | false =>
      rw [show onGoal cfg st true goal = GoalOutcome.rejected rr from by
        simp [onGoal, hv]] at hrej
      injection hrej with hr
      rw [← hr]
      rcases hs : validateState st ⟨-100, ""⟩ with ⟨b1, r1⟩
      cases b1 with
      | false =>
        rw [show validate cfg st goal ⟨-100, ""⟩ = (false, r1) from by simp [validate, hs]] at hv
        injection hv with hv1 hv2
        rw [← hv2]
        cases st <;> simp [validateState] at hs <;> rw [← hs] <;> decide
      | true =>
        have hst : st = RobotState.Running := by
          rw [← validateState_true_iff st ⟨-100, ""⟩, hs]
        subst hst
        have hr1 : r1 = ⟨-100, ""⟩ := by
          rw [validateState] at hs
          injection hs with hs1 hs2
          exact hs2.symm
        subst hr1
        rcases hj : validateJoints cfg goal ⟨-100, ""⟩ with ⟨b2, r2⟩
        cases b2 with
        | false =>
          rw [show validate cfg RobotState.Running goal ⟨-100, ""⟩ = (false, r2) from by
            simp [validate, validateState, hj]] at hv
          injection hv with hv1 hv2
          rw [← hv2]
          have hjn : goal.joint_names.toFinset ≠ cfg.joint_names.toFinset := by
            have := validateJoints_true_iff cfg goal ⟨-100, ""⟩
            rw [hj] at this
            intro hc
            exact Bool.noConfusion (this.mpr hc)
          exact validateJoints_false_msg cfg goal ⟨-100, ""⟩ r2 hjn hj
        | true =>
          have hjeq : goal.joint_names.toFinset = cfg.joint_names.toFinset := by
            have := validateJoints_true_iff cfg goal ⟨-100, ""⟩
            rw [hj] at this
            exact this.mp rfl
          have hr2 : r2 = ⟨-100, ""⟩ := by
            rw [show validateJoints cfg goal ⟨-100, ""⟩ = (true, ⟨-100, ""⟩) from by
              simp [validateJoints, hjeq]] at hj
            injection hj with hj1 hj2
            exact hj2.symm
          subst hr2
          rw [show validate cfg RobotState.Running goal ⟨-100, ""⟩ =
              validateTrajectory cfg goal ⟨-100, ""⟩ from by
            simp [validate, validateState, hj]] at hv
          have hlen : ¬goal.points.length < 1 := by
            intro hc
            exact hne (List.length_eq_zero.mp (Nat.lt_one_iff.mp hc))
          rw [show validateTrajectory cfg goal ⟨-100, ""⟩ =
              checkPoints cfg goal.points ⟨Result.INVALID_GOAL, ""⟩ from by
            simp [validateTrajectory, hlen]] at hv
          rcases checkPoints_false_msg cfg goal.points ⟨Result.INVALID_GOAL, ""⟩ rr hv with
            h5 | h5 | h5 | h5 | h5 <;> rw [h5]
          · decide
          · decide
          · decide
          · exact hover cfg.max_velocity "" (by decide)
          · decide
  · intro cfg goal r hpts hjeq hrej
    rw [show onGoal cfg RobotState.Running true goal =
        GoalOutcome.rejected ⟨Result.INVALID_GOAL, ""⟩ from by
      simp [onGoal, validate, validateState, validateJoints, hjeq, validateTrajectory, hpts]] at hrej
    injection hrej with hr
    rw [← hr]
    exact ⟨rfl, rfl⟩
  · refine ⟨by decide, by decide, by decide, by decide, by decide, by decide,
      by decide, by decide, by decide, by decide⟩
  · intro m
    refine ⟨hover m velSizeMsg (by decide), hover m posSizeMsg (by decide),
      hover m velFiniteMsg (by decide), hover m posFiniteMsg (by decide),
      hover m "" (by decide)⟩

/-- Witness for the amended C8: a goal whose point has no velocities is
rejected with the non-empty size-mismatch message. -/
theorem c8_amended_messages_witness :
    (Result.mk Result.INVALID_GOAL velSizeMsg).error_string ≠ "" :=
  c8_amended_messages.1 cfg1 RobotState.Running
    ⟨["a"], [⟨[Dbl.ofRat 0], [], ⟨0, 0⟩⟩]⟩
    ⟨Result.INVALID_GOAL, velSizeMsg⟩ (by decide) (by decide)

/-- The linear search stays within the list when the name is present. -/
theorem idxSearch_lt_length {l : List String} {a : String} (h : a ∈ l) :
    idxSearch l a < l.length := by
  induction l with
  | nil => cases h
  | cons x xs ih =>
    by_cases hx : a = x
    · simp [idxSearch, hx]
    · rcases List.mem_cons.mp h with h1 | h1
      · exact absurd h1 hx
      · rw [show idxSearch (x :: xs) a = idxSearch xs a + 1 from by simp [idxSearch, hx]]
        simpa using Nat.succ_lt_succ (ih h1)

/-- The linear search finds the searched name. -/
theorem idxSearch_getD {l : List String} {a : String} (h : a ∈ l) :
    l.getD (idxSearch l a) "" = a := by
  induction l with
  | nil => cases h
  | cons x xs ih =>
    by_cases hx : a = x
    · simp [idxSearch, hx]
    · rcases List.mem_cons.mp h with h1 | h1
      · exact absurd h1 hx
      · rw [show idxSearch (x :: xs) a = idxSearch xs a + 1 from by simp [idxSearch, hx]]
        simpa using ih h1

/-- The linear search is injective on names present in the list. -/
theorem idxSearch_inj {l : List String} {a b : String} (ha : a ∈ l) (hb : b ∈ l)
    (h : idxSearch l a = idxSearch l b) : a = b := by
  rw [← idxSearch_getD ha, ← idxSearch_getD hb, h]

/-- A slot not mentioned by the mapping keeps its previous value. -/
theorem scatterWrite_not_mem {ms : List ℕ} {vs : List ℚ} {f : ℕ → ℚ} {m : ℕ}
    (h : m ∉ ms) : scatterWrite ms vs f m = f m := by
  induction ms generalizing vs f with
  | nil => cases vs <;> rfl
  | cons x xs ih =>
    cases vs with
    | nil => rfl
    | cons v vs2 =>
      rw [show scatterWrite (x :: xs) (v :: vs2) f = scatterWrite xs vs2 (Function.update f x v)
        from rfl]
      rw [ih (fun hc => h (List.mem_cons_of_mem x hc))]
      exact Function.update_noteq (fun (hc : m = x) => h (by rw [hc]; exact List.mem_cons_self x xs)) v f

/-- With pairwise distinct destinations, the scatter loop stores the i-th
value at the i-th destination. -/
theorem scatterWrite_getD {ms : List ℕ} {vs : List ℚ} {f : ℕ → ℚ}
    (hnd : ms.Nodup) (hlen : ms.length ≤ vs.length) :
    ∀ i, i < ms.length → scatterWrite ms vs f (ms.getD i 0) = vs.getD i 0 := by
  induction ms generalizing vs f with
  | nil => intro i hi; cases hi
  | cons x xs ih =>
    intro i hi
    cases vs with
    | nil => simp at hlen
    | cons v vs2 =>
      rw [show scatterWrite (x :: xs) (v :: vs2) f = scatterWrite xs vs2 (Function.update f x v)
        from rfl]
      cases i with
      | zero =>
        rw [show (x :: xs).getD 0 0 = x from rfl, show (v :: vs2).getD 0 0 = v from rfl]
        rw [scatterWrite_not_mem (List.nodup_cons.mp hnd).1]
        exact Function.update_same x v f
      | succ j =>
        rw [show (x :: xs).getD (j + 1) 0 = xs.getD j 0 from rfl,
          show (v :: vs2).getD (j + 1) 0 = vs2.getD j 0 from rfl]
        exact ih (List.Nodup.of_cons hnd) (by simpa using hlen) j (by simpa using hi)

/-- Claim C1 amended: for a goal whose joint names are a permutation of
the configured names, the translation stores the goal point's i-th entries
at translated slot mapping[i] (the position of the i-th configured name in
the goal list): the arrays end up permuted by the inverse of the
name-to-index mapping, so the claimed per-index equality holds exactly for
involutive orderings. -/
theorem c1_amended_scatter (cfg_names gj : List String) (p : JointTrajPoint) (i : ℕ)
    (hnd : cfg_names.Nodup) (hsub : ∀ a ∈ cfg_names, a ∈ gj)
    (hplen : p.positions.length = cfg_names.length)
    (hvlen : p.velocities.length = cfg_names.length)
    (hi : i < cfg_names.length) :
    (translatePoint (reorderMap cfg_names gj) p).positions
        ((reorderMap cfg_names gj).getD i 0) = (p.positions.map Dbl.val).getD i 0 ∧
    (translatePoint (reorderMap cfg_names gj) p).velocities
        ((reorderMap cfg_names gj).getD i 0) = (p.velocities.map Dbl.val).getD i 0 := by
  have hmnd : (reorderMap cfg_names gj).Nodup := by
    refine List.Nodup.map_on ?_ hnd
    intro x hx y hy hxy
    exact idxSearch_inj (hsub x hx) (hsub y hy) hxy
  have hmlen : (reorderMap cfg_names gj).length = cfg_names.length := by
    simp [reorderMap]
  constructor
  · exact scatterWrite_getD hmnd (by simp [hmlen, hplen]) i (by omega)
  · exact scatterWrite_getD hmnd (by simp [hmlen, hvlen]) i (by omega)

/-- Witness for the amended C1: a two-joint swap stores the first goal
entry at slot 1 and is read back there. -/
theorem c1_amended_scatter_witness :
    (translatePoint (reorderMap ["a", "b"] ["b", "a"]) swapPt).positions
        ((reorderMap ["a", "b"] ["b", "a"]).getD 0 0) =
      (swapPt.positions.map Dbl.val).getD 0 0 ∧
    (translatePoint (reorderMap ["a", "b"] ["b", "a"]) swapPt).velocities
        ((reorderMap ["a", "b"] ["b", "a"]).getD 0 0) =
      (swapPt.velocities.map Dbl.val).getD 0 0 :=
  c1_amended_scatter ["a", "b"] ["b", "a"] swapPt 0 (by decide) (by decide)
    (by decide) (by decide) (by decide)

/-- Appending an event preserves the abort-before-began ordering provided
a began-B event is only appended when the abort is already present. -/
theorem abortPrecedes_append {A B : ℕ} {tr : List TEvent} {e : TEvent}
    (h : abortPrecedes A B tr)
    (he : e = TEvent.began B → TEvent.abortedT A preemptMsg ∈ tr) :
    abortPrecedes A B (tr ++ [e]) := by
  intro n hn
  by_cases hlt : n < tr.length
  · rw [List.get?_append hlt] at hn
    rcases h n hn with ⟨m, hm1, hm2⟩
    exact ⟨m, hm1, by rw [List.get?_append (lt_trans hm1 hlt)]; exact hm2⟩
  · have hlen : n < tr.length + 1 := by
      by_contra hc
      have hnone : (tr ++ [e]).get? n = none := by
        rw [List.get?_eq_none]
        simp only [List.length_append, List.length_cons, List.length_nil]
        omega
      rw [hnone] at hn
      exact Option.noConfusion hn
    have hne : n = tr.length := by omega
    subst hne
    have hget : (tr ++ [e]).get? tr.length = some e := by
      rw [List.get?_append_right (le_refl _)]
      simp
    rw [hget] at hn
    injection hn with hn2
    rcases List.get?_of_mem (he hn2) with ⟨m, hm⟩
    have hmlt : m < tr.length := by
      by_contra hc
      rw [List.get?_eq_none.mpr (not_lt.mp hc)] at hm
      exact Option.noConfusion hm
    exact ⟨m, hmlt, by rw [List.get?_append hmlt]; exact hm⟩

/-- The invariant holds in the initial preemption state. -/
theorem sysInv_init {A B : ℕ} (hAB : A ≠ B) : SysInv A B (initSys A) := by
  refine ⟨?_, ?_, ?_, ?_, ?_, ?_⟩
  · intro n hn
    cases n with
    | zero =>
      simp [initSys] at hn
      exact absurd hn hAB
    | succ k =>
      simp [initSys, List.get?] at hn
  · intro hc
    exact absurd rfl hc
  · intro _
    rfl
  · intro he hg
    exact ExecPC.noConfusion he
  · intro hc
    exact AdmPC.noConfusion hc
  · intro _
    rfl

/-- Every interleaved step preserves the invariant. -/
theorem sysInv_step {A B : ℕ} {s t : Sys} (hs : SysInv A B s) (hstep : Step B s t) :
    SysInv A B t := by
  obtain ⟨h1, h2, h3, h4, h5, h6⟩ := hs
  cases hstep with
  | admAbort h =>
    have hcur := h3 h
    refine ⟨?_, ?_, ?_, ?_, ?_, ?_⟩
    · show abortPrecedes A B (s.trace ++ [TEvent.abortedT s.curr preemptMsg])
      rw [hcur]
      exact abortPrecedes_append h1 (fun he => absurd he (by simp))
    · intro _
      show TEvent.abortedT A preemptMsg ∈ s.trace ++ [TEvent.abortedT s.curr preemptMsg]
      rw [hcur]
      exact List.mem_append_right _ (List.mem_singleton.mpr rfl)
    · intro hc
      exact AdmPC.noConfusion hc
    · intro he hg
      have h4x := h4 he hg
      rw [h] at h4x
      exact AdmPC.noConfusion h4x.1
    · intro hc
      exact AdmPC.noConfusion hc
    · intro hor
      exact h6 hor
  | admLock h hm =>
    have hne : s.apc ≠ AdmPC.aabort := by
      rw [h]
      exact fun hc => AdmPC.noConfusion hc
    refine ⟨h1, ?_, ?_, ?_, ?_, ?_⟩
    · intro _
      exact h2 hne
    · intro hc
      exact AdmPC.noConfusion hc
    · intro he hg
      have h4x := h4 he hg
      rw [h] at h4x
      exact AdmPC.noConfusion h4x.1
    · intro _
      rfl
    · intro hor
      have h6x := h6 hor
      rw [hm] at h6x
      exact Option.noConfusion h6x
  | admHandoff h =>
    have hne : s.apc ≠ AdmPC.aabort := by
      rw [h]
      exact fun hc => AdmPC.noConfusion hc
    refine ⟨h1, ?_, ?_, ?_, ?_, ?_⟩
    · intro _
      exact h2 hne
    · intro hc
      exact AdmPC.noConfusion hc
    · intro he hg
      exact ⟨rfl, rfl⟩
    · intro hc
      exact AdmPC.noConfusion hc
    · intro hor
      have h6x := h6 hor
      have h5x := h5 h
      rw [h5x] at h6x
      injection h6x with hx
      exact Tid.noConfusion hx
  | execWake h hm hg =>
    have h4x := h4 h hg
    have hne : s.apc ≠ AdmPC.aabort := by
      rw [h4x.1]
      exact fun hc => AdmPC.noConfusion hc
    refine ⟨?_, ?_, ?_, ?_, ?_, ?_⟩
    · show abortPrecedes A B (s.trace ++ [TEvent.began s.curr])
      exact abortPrecedes_append h1 (fun _ => h2 hne)
    · intro _
      exact List.mem_append_left _ (h2 hne)
    · intro hc
      rw [h4x.1] at hc
      exact AdmPC.noConfusion hc
    · intro he _
      exact ExecPC.noConfusion he
    · intro hc
      rw [h4x.1] at hc
      exact AdmPC.noConfusion hc
    · intro _
      rfl
  | execInterrupted h hi =>
    refine ⟨h1, h2, h3, ?_, h5, ?_⟩
    · intro he _
      exact ExecPC.noConfusion he
    · intro _
      exact h6 (Or.inl h)
  | execSucceed h =>
    refine ⟨?_, ?_, h3, ?_, h5, ?_⟩
    · show abortPrecedes A B (s.trace ++ [TEvent.succeededT s.curr])
      exact abortPrecedes_append h1 (fun he => absurd he (by simp))
    · intro hne
      exact List.mem_append_left _ (h2 hne)
    · intro he _
      exact ExecPC.noConfusion he
    · intro _
      exact h6 (Or.inl h)
  | execTimeoutAbort h =>
    refine ⟨?_, ?_, h3, ?_, h5, ?_⟩
    · show abortPrecedes A B (s.trace ++ [TEvent.abortedT s.curr timeoutAbortMsg])
      refine abortPrecedes_append h1 (fun he => absurd he (by simp))
    · intro hne
      exact List.mem_append_left _ (h2 hne)
    · intro he _
      exact ExecPC.noConfusion he
    · intro _
      exact h6 (Or.inl h)
  | execRelease h =>
    refine ⟨h1, h2, h3, ?_, ?_, ?_⟩
    · intro _ hg
      exact Bool.noConfusion hg
    · intro hc
      have h5x := h5 hc
      have h6x := h6 (Or.inr h)
      rw [h5x] at h6x
      injection h6x with hx
      exact Tid.noConfusion hx
    · intro hor
      rcases hor with hor | hor <;> exact ExecPC.noConfusion hor

/-- The invariant holds in every reachable state. -/
theorem sysInv_reaches {A B : ℕ} (hAB : A ≠ B) {s : Sys}
    (h : Reaches B (initSys A) s) : SysInv A B s := by
  induction h with
  | refl => exact sysInv_init hAB
  | tail _ hstep ih => exact sysInv_step ih hstep

/-- Claim C2: from any state where goal A is executing and goal B has just
been submitted against the held execution lock, every reachable trace
orders the preemption abort of A strictly before any start of B, and the
admission critical section never overlaps the execution of a goal (the
lock admits one holder; a single current-goal slot, no queue). -/
theorem c2_preemption_serializes (A B : ℕ) (hAB : A ≠ B) (s : Sys)
    (hr : Reaches B (initSys A) s) :
    abortPrecedes A B s.trace ∧
    ¬(s.apc = AdmPC.acritical ∧ (s.epc = ExecPC.erun ∨ s.epc = ExecPC.efinish)) := by
  have hi := sysInv_reaches hAB hr
  refine ⟨hi.1, ?_⟩
  rintro ⟨ha, he⟩
  have hm1 := hi.2.2.2.2.1 ha
  have hm2 := hi.2.2.2.2.2 he
  rw [hm1] at hm2
  injection hm2 with hx
  exact Tid.noConfusion hx

/-- Witness for C2: the initial state itself, with goals 0 and 1. -/
theorem c2_preemption_serializes_witness :
    abortPrecedes 0 1 (initSys 0).trace ∧
    ¬((initSys 0).apc = AdmPC.acritical ∧
      ((initSys 0).epc = ExecPC.erun ∨ (initSys 0).epc = ExecPC.efinish)) :=
  c2_preemption_serializes 0 1 (by decide) (initSys 0) (Reaches.refl _)
